import Mathlib

/-!
# RISC-V PLIC driver (src/arch/riscv/irqc/plic/plic.c)

A shallow embedding of the PLIC driver of the Bao hypervisor and the
properties of its context mapping, capability probe, initialiser and
accessors.

Conventions of the embedding.

* The header `plic.h` and the platform description are not part of the
  slice, so the constants they define are the fields of `PlicConsts`.
* C unsigned integers are `Nat`; a value stored into a `uint32_t` is
  reduced modulo `2 ^ 32`, arithmetic on `size_t` / `cpuid_t` is reduced
  modulo `2 ^ SIZE_BITS`, and `ssize_t` is `Int`.
* The memory-mapped register blocks are the fields of `PlicState`, and
  every driver function takes the state and returns the new one.
-/

namespace Plic

/-! ## Constants and types declared outside the slice -/

/-- Constants of `plic.h` and of the platform headers used by `plic.c`. -/
structure PlicConsts where
  /-- The bound on the source ids the probe scans. -/
  PLIC_MAX_INTERRUPTS : Nat
  /-- The number of 32-bit enable words of one context. -/
  PLIC_NUM_ENBL_REGS : Nat
  /-- The number of contexts of the platform. -/
  PLIC_PLAT_CNTXT_NUM : Nat
  /-- The encoding of machine mode. -/
  PRIV_M : Nat
  /-- The encoding of supervisor mode. -/
  PRIV_S : Nat
  /-- The core id that marks an invalid context. -/
  INVALID_CPUID : Nat
  /-- The width in bits of `size_t`, `ssize_t` and `cpuid_t`. -/
  SIZE_BITS : Nat

/-- The pair `struct plic_cntxt { hart_id; mode }`. -/
structure plic_cntxt where
  hart_id : Nat
  mode : Nat
deriving DecidableEq

/-- Conversion of an unsigned machine word of `w` bits to the signed type of
the same width (the cast `(ssize_t)`). -/
def to_ssize (w : Nat) (n : Nat) : Int :=
  if n % 2 ^ w < 2 ^ (w - 1) then ((n % 2 ^ w : Nat) : Int)
  else ((n % 2 ^ w : Nat) : Int) - ((2 ^ w : Nat) : Int)

/-- Conversion of a signed value to the unsigned type of `w` bits (what
happens to an `ssize_t` passed where a `size_t` is expected). -/
def to_size (w : Nat) (z : Int) : Nat :=
  (z % ((2 ^ w : Nat) : Int)).toNat

/-! ## Default context mapping (plic.c, lines 158-176) -/

/-- The default (weak) `plic_plat_cntxt_to_id`. -/
def plic_plat_cntxt_to_id (k : PlicConsts) (cntxt : plic_cntxt) : Int :=
  if cntxt.mode ≠ k.PRIV_M ∧ cntxt.mode ≠ k.PRIV_S then
    -1
  else
    to_ssize k.SIZE_BITS
      (((cntxt.hart_id * 2) % 2 ^ k.SIZE_BITS
          + (if cntxt.mode = k.PRIV_M then 0 else 1)) % 2 ^ k.SIZE_BITS)

/-- The default (weak) `plic_plat_id_to_cntxt`. -/
def plic_plat_id_to_cntxt (k : PlicConsts) (id : Nat) : plic_cntxt :=
  if id < k.PLIC_PLAT_CNTXT_NUM then
    { hart_id := id / 2, mode := if id % 2 = 0 then k.PRIV_M else k.PRIV_S }
  else
    { hart_id := k.INVALID_CPUID, mode := 0 }

/-- The constants of a 64-bit platform with `n` contexts: 1024 source ids,
32 enable words per context, the RISC-V privilege encodings. -/
def consts64 (n : Nat) : PlicConsts :=
  { PLIC_MAX_INTERRUPTS := 1024
    PLIC_NUM_ENBL_REGS := 32
    PLIC_PLAT_CNTXT_NUM := n
    PRIV_M := 3
    PRIV_S := 1
    INVALID_CPUID := 2 ^ 64 - 1
    SIZE_BITS := 64 }

/-! ## Platform and register state -/

/-- What the driver is linked and run against: the constants, the two
context-mapping functions (weak symbols in `plic.c`, so a platform may
supply its own) and the behaviour of the priority registers of the PLIC
instance. -/
structure PlicPlat extends PlicConsts where
  /-- The linked `plic_plat_cntxt_to_id`. -/
  cntxt_to_id : plic_cntxt → Int
  /-- The linked `plic_plat_id_to_cntxt`. -/
  id_to_cntxt : Nat → plic_cntxt
  /-- The value `prio_readback i v` is what a read of priority register `i`
  returns when `v` is the last value written to it: a register that stores
  what is written has `prio_readback i v = v`, one that the hardware does
  not decode has `prio_readback i v = 0`. -/
  prio_readback : Nat → Nat → Nat

/-- The platform with the default context mapping of `plic.c`. -/
def default_plat (k : PlicConsts) (rb : Nat → Nat → Nat) : PlicPlat :=
  { toPlicConsts := k
    cntxt_to_id := plic_plat_cntxt_to_id k
    id_to_cntxt := plic_plat_id_to_cntxt k
    prio_readback := rb }

/-- The global `PLIC_IMPL_INTERRUPTS` and the register blocks `plic_global`
(priority words, pending words, enable words per context) and `plic_hart`
(threshold word per context). -/
structure PlicState where
  PLIC_IMPL_INTERRUPTS : Nat
  /-- The last value written to `plic_global->prio[i]`. -/
  prio : Nat → Nat
  /-- The word `plic_global->pend[j]`. -/
  pend : Nat → Nat
  /-- The word `plic_global->enbl[c][j]`. -/
  enbl : Nat → Nat → Nat
  /-- The word `plic_hart[c].threshold`. -/
  threshold : Nat → Nat

/-- The store `plic_global->prio[i] = v`. -/
def wr_prio (st : PlicState) (i v : Nat) : PlicState :=
  { st with prio := fun j => if j = i then v % 2 ^ 32 else st.prio j }

/-- The load of `plic_global->prio[i]`. -/
def rd_prio (p : PlicPlat) (st : PlicState) (i : Nat) : Nat :=
  p.prio_readback i (st.prio i)

/-- The store `plic_global->enbl[c][j] = v`. -/
def wr_enbl (st : PlicState) (c j v : Nat) : PlicState :=
  { st with enbl := fun c1 j1 => if c1 = c ∧ j1 = j then v % 2 ^ 32 else st.enbl c1 j1 }

/-- The store `plic_hart[c].threshold = v`. -/
def wr_threshold (st : PlicState) (c v : Nat) : PlicState :=
  { st with threshold := fun c1 => if c1 = c then v % 2 ^ 32 else st.threshold c1 }

/-! ## Capability probe and initialiser (plic.c, lines 17-55) -/

/-- The loop of `plic_scan_max_int`, with `n` the number of iterations left
before `i` reaches `PLIC_MAX_INTERRUPTS`. It returns `res` and the state
the writes leave behind. When the iterations run out without a `break`,
`res` still has its initial value `0`. -/
def plic_scan_loop (p : PlicPlat) : Nat → Nat → PlicState → Nat × PlicState
  | 0, _, st => (0, st)
  | n + 1, i, st =>
    let st1 := wr_prio st i 0xFFFFFFFF
    if rd_prio p st1 i = 0 then
      (i - 1, st1)
    else
      plic_scan_loop p n (i + 1) (wr_prio st1 i 0)

/-- The function `plic_scan_max_int`: the loop from `i = 1` while
`i < PLIC_MAX_INTERRUPTS`. -/
def plic_scan_max_int (p : PlicPlat) (st : PlicState) : Nat × PlicState :=
  plic_scan_loop p (p.PLIC_MAX_INTERRUPTS - 1) 1 st

/-- The function `plic_init`, from the probe on; the state it is given is the
register bank the two `mem_alloc_map_dev` calls have mapped. -/
def plic_init (p : PlicPlat) (st : PlicState) : PlicState :=
  let r := plic_scan_max_int p st
  let st1 : PlicState := { r.2 with PLIC_IMPL_INTERRUPTS := r.1 }
  let st2 := (List.range (st1.PLIC_IMPL_INTERRUPTS + 1)).foldl
    (fun s i => wr_prio s i 0) st1
  (List.range p.PLIC_PLAT_CNTXT_NUM).foldl
    (fun s i => (List.range p.PLIC_NUM_ENBL_REGS).foldl (fun s1 j => wr_enbl s1 i j 0) s)
    st2

/-! ## Accessors (plic.c, lines 64-110) -/

/-- The function `plic_cntxt_valid`. -/
def plic_cntxt_valid (p : PlicPlat) (cntxt_id : Nat) : Bool :=
  let cntxt := p.id_to_cntxt cntxt_id
  decide (cntxt_id < p.PLIC_PLAT_CNTXT_NUM) && decide (cntxt.mode ≤ p.PRIV_S)

/-- The function `plic_set_enbl`. -/
def plic_set_enbl (p : PlicPlat) (st : PlicState) (cntxt int_id : Nat) (en : Bool) :
    PlicState :=
  let reg_ind := int_id / 32
  let mask := 1 <<< (int_id % 32)
  if int_id ≤ st.PLIC_IMPL_INTERRUPTS ∧ plic_cntxt_valid p cntxt = true then
    if en then
      wr_enbl st cntxt reg_ind (st.enbl cntxt reg_ind ||| mask)
    else
      wr_enbl st cntxt reg_ind (st.enbl cntxt reg_ind &&& (mask ^^^ 0xFFFFFFFF))
  else
    st

/-- The function `plic_get_enbl`; the conversion of the masked word to `bool`
is the test against zero. -/
def plic_get_enbl (p : PlicPlat) (st : PlicState) (cntxt int_id : Nat) : Bool :=
  let reg_ind := int_id / 32
  let mask := 1 <<< (int_id % 32)
  if int_id ≤ st.PLIC_IMPL_INTERRUPTS ∧ plic_cntxt_valid p cntxt = true then
    decide (st.enbl cntxt reg_ind &&& mask ≠ 0)
  else
    false

/-- The function `plic_set_prio`. -/
def plic_set_prio (st : PlicState) (int_id prio : Nat) : PlicState :=
  if int_id ≤ st.PLIC_IMPL_INTERRUPTS then wr_prio st int_id prio else st

/-- The function `plic_get_prio`. -/
def plic_get_prio (p : PlicPlat) (st : PlicState) (int_id : Nat) : Nat :=
  if int_id ≤ st.PLIC_IMPL_INTERRUPTS then rd_prio p st int_id else 0

/-! ## Pending and threshold accessors (plic.c, lines 112-138) -/

/-- The function `plic_get_pend`. -/
def plic_get_pend (st : PlicState) (int_id : Nat) : Bool :=
  let reg_ind := int_id / 32
  let mask := 1 <<< (int_id % 32)
  if int_id ≤ st.PLIC_IMPL_INTERRUPTS then
    decide (st.pend reg_ind &&& mask ≠ 0)
  else
    false

/-- The function `plic_set_threshold`. -/
def plic_set_threshold (p : PlicPlat) (st : PlicState) (cntxt threshold : Nat) :
    PlicState :=
  if plic_cntxt_valid p cntxt = true then wr_threshold st cntxt threshold else st

/-- The function `plic_get_threshold`. Its parameter has type `unsigned`,
unlike the `size_t` of the setter, so a context id passed to it is first
reduced to 32 bits; the reduced value is what `plic_cntxt_valid` tests and
what indexes `plic_hart`. -/
def plic_get_threshold (p : PlicPlat) (st : PlicState) (cntxt : Nat) : Nat :=
  let cntxt32 := cntxt % 2 ^ 32
  if plic_cntxt_valid p cntxt32 = true then st.threshold cntxt32 else 0

/-- A sequence of `plic_set_prio(id, prio)` calls, run from left to right. -/
def plic_set_prio_seq (st : PlicState) (calls : List (Nat × Nat)) : PlicState :=
  calls.foldl (fun t c => plic_set_prio t c.1 c.2) st

/-! ## Per-core initialiser and claim/complete handler (plic.c, lines 57-62, 140-151) -/

/-- The fields of the calling core's `struct cpu` that `plic.c` touches:
`cpu()->id`, `cpu()->arch.plic_cntxt` and
`cpu()->arch.handling_irq.external_id`. -/
structure Cpu where
  id : Nat
  plic_cntxt : Nat
  external_id : Nat

/-- The function `plic_cpu_init`, run on the core whose `struct cpu` is
`cpu`. The cast `(unsigned)` of the mapped id is the reduction to 32 bits,
and the threshold store is not guarded. -/
def plic_cpu_init (p : PlicPlat) (cpu : Cpu) (st : PlicState) : Cpu × PlicState :=
  let cpu1 : Cpu :=
    { cpu with
      plic_cntxt := to_size 32 (p.cntxt_to_id { hart_id := cpu.id, mode := p.PRIV_S }) }
  (cpu1, wr_threshold st cpu1.plic_cntxt 0)

/-- What `plic_handle` does to the world outside the driver, in program
order: the load of a claim register, the call of `interrupts_handle`, the
store to a completion register. -/
inductive PlicEvent where
  | claim_read (cntxt : Nat)
  | dispatch (id : Nat)
  | complete_write (cntxt id : Nat)
deriving DecidableEq

/-- The collaborators of `plic_handle`: the value `HANDLED_BY_HYP` of
`enum irq_res`, the value a load of the claim register of a context returns,
and the result of the dispatcher `interrupts_handle` for a source id. The
dispatcher is taken not to write the calling core's `plic_cntxt`. -/
structure IrqEnv where
  HANDLED_BY_HYP : Nat
  claim : Nat → Nat
  interrupts_handle : Nat → Nat

/-- The function `plic_handle`, run on the core whose `struct cpu` is `cpu`:
the new `struct cpu` and the events in program order. -/
def plic_handle (e : IrqEnv) (cpu : Cpu) : Cpu × List PlicEvent :=
  let id := e.claim cpu.plic_cntxt
  if id ≠ 0 then
    let cpu1 : Cpu := { cpu with external_id := id }
    let res := e.interrupts_handle id
    if res = e.HANDLED_BY_HYP then
      (cpu1, [PlicEvent.claim_read cpu.plic_cntxt, PlicEvent.dispatch id,
        PlicEvent.complete_write cpu1.plic_cntxt id])
    else
      (cpu1, [PlicEvent.claim_read cpu.plic_cntxt, PlicEvent.dispatch id])
  else
    (cpu, [PlicEvent.claim_read cpu.plic_cntxt])

/-- The test for a load of a claim register. -/
def PlicEvent.is_claim_read : PlicEvent → Bool
  | PlicEvent.claim_read _ => true
  | _ => false

/-- The test for a call of the dispatcher. -/
def PlicEvent.is_dispatch : PlicEvent → Bool
  | PlicEvent.dispatch _ => true
  | _ => false

/-- The test for a store to a completion register. -/
def PlicEvent.is_complete_write : PlicEvent → Bool
  | PlicEvent.complete_write _ _ => true
  | _ => false

/-! ## The driver as a whole -/

/-- The state the driver's entry points act on: the register bank with
`PLIC_IMPL_INTERRUPTS`, the `struct cpu` of every core, and the events of
the handler so far. -/
structure Machine where
  regs : PlicState
  cpus : Nat → Cpu
  trace : List PlicEvent

/-- A call of one of the entry points of `plic.c` other than `plic_init`;
`core` is the core that makes a per-core call. -/
inductive PlicCall where
  | cpu_init (core : Nat)
  | set_enbl (cntxt int_id : Nat) (en : Bool)
  | get_enbl (cntxt int_id : Nat)
  | set_prio (int_id prio : Nat)
  | get_prio (int_id : Nat)
  | get_pend (int_id : Nat)
  | set_threshold (cntxt threshold : Nat)
  | get_threshold (cntxt : Nat)
  | handle (core : Nat)

/-- The state after a call. The four getters store nothing, so they leave
the state as it is. -/
def plic_call (p : PlicPlat) (e : IrqEnv) (m : Machine) : PlicCall → Machine
  | PlicCall.cpu_init h =>
    let r := plic_cpu_init p (m.cpus h) m.regs
    { m with regs := r.2, cpus := fun j => if j = h then r.1 else m.cpus j }
  | PlicCall.set_enbl c s en => { m with regs := plic_set_enbl p m.regs c s en }
  | PlicCall.get_enbl _ _ => m
  | PlicCall.set_prio s v => { m with regs := plic_set_prio m.regs s v }
  | PlicCall.get_prio _ => m
  | PlicCall.get_pend _ => m
  | PlicCall.set_threshold c t => { m with regs := plic_set_threshold p m.regs c t }
  | PlicCall.get_threshold _ => m
  | PlicCall.handle h =>
    let r := plic_handle e (m.cpus h)
    { m with cpus := fun j => if j = h then r.1 else m.cpus j, trace := m.trace ++ r.2 }

/-- A sequence of calls, run from left to right. -/
def plic_run (p : PlicPlat) (e : IrqEnv) (m : Machine) (calls : List PlicCall) : Machine :=
  calls.foldl (plic_call p e) m

/-! ## Concrete platforms and states used as instances -/

/-- A register bank with all words zero and `PLIC_IMPL_INTERRUPTS = n`. -/
def zero_state (n : Nat) : PlicState :=
  { PLIC_IMPL_INTERRUPTS := n
    prio := fun _ => 0
    pend := fun _ => 0
    enbl := fun _ _ => 0
    threshold := fun _ => 0 }

/-- A register bank left with non-zero contents in every priority, enable
and threshold word, and `PLIC_IMPL_INTERRUPTS = n`. -/
def dirty_state (n : Nat) : PlicState :=
  { PLIC_IMPL_INTERRUPTS := n
    prio := fun _ => 5
    pend := fun _ => 0
    enbl := fun _ _ => 0xFFFFFFFF
    threshold := fun _ => 3 }

/-- Priority registers of a PLIC that implements exactly the sources
`1..=k`: those store what is written, every other one reads zero. -/
def readback_upto (k : Nat) (i v : Nat) : Nat :=
  if 1 ≤ i ∧ i ≤ k then v else 0

/-- A dispatcher that services source 5 in the hypervisor (result 0, taken
as `HANDLED_BY_HYP`) and forwards every other source (result 1), with the
claim register of every context returning `id`. -/
def env_claiming (id : Nat) : IrqEnv :=
  { HANDLED_BY_HYP := 0
    claim := fun _ => id
    interrupts_handle := fun s => if s = 5 then 0 else 1 }

/-- The `struct cpu` of core `h` before `plic_cpu_init`. -/
def cpu_of (h : Nat) : Cpu :=
  { id := h, plic_cntxt := 0, external_id := 0 }

/-! ## Context mapping: helper lemmas -/

theorem to_ssize_of_lt (w n : Nat) (h : n < 2 ^ (w - 1)) :
    to_ssize w n = (n : Int) := by
  have hle : 2 ^ (w - 1) ≤ 2 ^ w := Nat.pow_le_pow_right (by decide) (Nat.sub_le w 1)
  have hn : n % 2 ^ w = n := Nat.mod_eq_of_lt (lt_of_lt_of_le h hle)
  unfold to_ssize
  rw [hn, if_pos h]

theorem to_size_to_ssize (w n : Nat) (h : n < 2 ^ w) :
    to_size w (to_ssize w n) = n := by
  have hn : n % 2 ^ w = n := Nat.mod_eq_of_lt h
  have hpos : (0 : Int) < ((2 ^ w : Nat) : Int) := by
    exact_mod_cast Nat.pos_of_ne_zero (by positivity)
  unfold to_size to_ssize
  rw [hn]
  split
  · rw [Int.emod_eq_of_lt (by omega) (by exact_mod_cast h)]
    simp
  · rw [Int.sub_emod, Int.emod_self, sub_zero, Int.emod_emod_of_dvd _ (dvd_refl _),
      Int.emod_eq_of_lt (by omega) (by exact_mod_cast h)]
    simp

/-! ## Register stores: helper lemmas -/

theorem rd_prio_wr_prio_same (p : PlicPlat) (st : PlicState) (i v : Nat) :
    rd_prio p (wr_prio st i v) i = p.prio_readback i (v % 2 ^ 32) := by
  simp [rd_prio, wr_prio]

theorem foldl_wr_prio_impl (l : List Nat) (st : PlicState) :
    (l.foldl (fun s i => wr_prio s i 0) st).PLIC_IMPL_INTERRUPTS
      = st.PLIC_IMPL_INTERRUPTS := by
  induction l generalizing st with
  | nil => rfl
  | cons a l ih => rw [List.foldl_cons, ih]; rfl

theorem foldl_wr_prio_enbl (l : List Nat) (st : PlicState) :
    (l.foldl (fun s i => wr_prio s i 0) st).enbl = st.enbl := by
  induction l generalizing st with
  | nil => rfl
  | cons a l ih => rw [List.foldl_cons, ih]; rfl

theorem foldl_wr_prio_prio (l : List Nat) (st : PlicState) (i : Nat) (hi : i ∈ l) :
    (l.foldl (fun s i => wr_prio s i 0) st).prio i = 0 := by
  induction l generalizing st with
  | nil => cases hi
  | cons a l ih =>
    rw [List.foldl_cons]
    by_cases hmem : i ∈ l
    · exact ih _ hmem
    · have hia : i = a := by
        rcases List.mem_cons.mp hi with h | h
        · exact h
        · exact absurd h hmem
      have hkeep : ∀ (l1 : List Nat) (s : PlicState), i ∉ l1 →
          (l1.foldl (fun s i => wr_prio s i 0) s).prio i = s.prio i := by
        intro l1
        induction l1 with
        | nil => intro s _; rfl
        | cons b l1 ih1 =>
          intro s hb
          rw [List.foldl_cons, ih1 _ (fun h => hb (List.mem_cons_of_mem _ h))]
          have hne : i ≠ b := fun h => hb (h ▸ List.mem_cons_self _ _)
          simp [wr_prio, hne]
      rw [hkeep l _ hmem, hia]
      simp [wr_prio]

theorem foldl_wr_enbl_impl (c : Nat) (l : List Nat) (st : PlicState) :
    (l.foldl (fun s1 j => wr_enbl s1 c j 0) st).PLIC_IMPL_INTERRUPTS
      = st.PLIC_IMPL_INTERRUPTS := by
  induction l generalizing st with
  | nil => rfl
  | cons a l ih => rw [List.foldl_cons, ih]; rfl

theorem foldl_wr_enbl_prio (c : Nat) (l : List Nat) (st : PlicState) :
    (l.foldl (fun s1 j => wr_enbl s1 c j 0) st).prio = st.prio := by
  induction l generalizing st with
  | nil => rfl
  | cons a l ih => rw [List.foldl_cons, ih]; rfl

/-- A row of zero stores leaves a zero in every word it names and changes no
other word. -/
theorem foldl_wr_enbl_enbl (c : Nat) (l : List Nat) (st : PlicState) (c1 j1 : Nat) :
    (l.foldl (fun s1 j => wr_enbl s1 c j 0) st).enbl c1 j1
      = if c1 = c ∧ j1 ∈ l then 0 else st.enbl c1 j1 := by
  induction l generalizing st with
  | nil => simp
  | cons a l ih =>
    rw [List.foldl_cons, ih]
    by_cases hc : c1 = c
    · by_cases hj : j1 ∈ l
      · simp [hc, hj]
      · by_cases ha : j1 = a
        · simp [hc, ha, wr_enbl]
        · simp [hc, hj, ha, wr_enbl]
    · simp [hc, wr_enbl]

theorem foldl_rows_impl (lc lj : List Nat) (st : PlicState) :
    (lc.foldl (fun s i => lj.foldl (fun s1 j => wr_enbl s1 i j 0) s) st).PLIC_IMPL_INTERRUPTS
      = st.PLIC_IMPL_INTERRUPTS := by
  induction lc generalizing st with
  | nil => rfl
  | cons a lc ih => rw [List.foldl_cons, ih, foldl_wr_enbl_impl]

theorem foldl_rows_prio (lc lj : List Nat) (st : PlicState) :
    (lc.foldl (fun s i => lj.foldl (fun s1 j => wr_enbl s1 i j 0) s) st).prio
      = st.prio := by
  induction lc generalizing st with
  | nil => rfl
  | cons a lc ih => rw [List.foldl_cons, ih, foldl_wr_enbl_prio]

theorem foldl_rows_enbl (lc lj : List Nat) (st : PlicState) (c1 j1 : Nat) :
    (lc.foldl (fun s i => lj.foldl (fun s1 j => wr_enbl s1 i j 0) s) st).enbl c1 j1
      = if c1 ∈ lc ∧ j1 ∈ lj then 0 else st.enbl c1 j1 := by
  induction lc generalizing st with
  | nil => simp
  | cons a lc ih =>
    rw [List.foldl_cons, ih, foldl_wr_enbl_enbl]
    by_cases hj : j1 ∈ lj
    · by_cases hc : c1 ∈ lc
      · simp [hc, hj]
      · by_cases ha : c1 = a
        · simp [ha, hj]
        · simp [hc, ha, hj]
    · simp [hj]

/-! ## Capability probe: helper lemmas -/

/-- The loop stops at the first source whose register reads zero after the
all-ones write, when that source is reached before the iterations run out. -/
theorem plic_scan_loop_stops (p : PlicPlat) (k : Nat) :
    ∀ (n i : Nat) (st : PlicState), i ≤ k + 1 → k + 1 < i + n →
      (∀ j, i ≤ j → j ≤ k → p.prio_readback j 0xFFFFFFFF ≠ 0) →
      p.prio_readback (k + 1) 0xFFFFFFFF = 0 →
      (plic_scan_loop p n i st).1 = k := by
  intro n
  induction n with
  | zero => intro i st h1 h2; omega
  | succ n ih =>
    intro i st h1 h2 himpl hzero
    unfold plic_scan_loop
    simp only [rd_prio_wr_prio_same]
    by_cases hik : i = k + 1
    · subst hik
      have hz : p.prio_readback (k + 1) (0xFFFFFFFF % 2 ^ 32) = 0 := hzero
      rw [if_pos hz]
      simp
    · have hnz : ¬ p.prio_readback i (0xFFFFFFFF % 2 ^ 32) = 0 :=
        himpl i (Nat.le_refl i) (by omega)
      rw [if_neg hnz]
      exact ih (i + 1) _ (by omega) (by omega)
        (fun j hj hjk => himpl j (by omega) hjk) hzero

/-- The loop returns zero when no register it probes reads zero. -/
theorem plic_scan_loop_exhausted (p : PlicPlat) :
    ∀ (n i : Nat) (st : PlicState),
      (∀ j, i ≤ j → j < i + n → p.prio_readback j 0xFFFFFFFF ≠ 0) →
      (plic_scan_loop p n i st).1 = 0 := by
  intro n
  induction n with
  | zero => intro i st _; rfl
  | succ n ih =>
    intro i st himpl
    unfold plic_scan_loop
    simp only [rd_prio_wr_prio_same]
    have hnz : ¬ p.prio_readback i (0xFFFFFFFF % 2 ^ 32) = 0 :=
      himpl i (Nat.le_refl i) (by omega)
    rw [if_neg hnz]
    exact ih (i + 1) _ (fun j hj hjk => himpl j (by omega) (by omega))

/-- The result of the loop is zero or leaves room for one more source id
below the bound. -/
theorem plic_scan_loop_bound (p : PlicPlat) :
    ∀ (n i : Nat) (st : PlicState), 1 ≤ i →
      (plic_scan_loop p n i st).1 = 0 ∨ (plic_scan_loop p n i st).1 + 1 < i + n := by
  intro n
  induction n with
  | zero => intro i st _; exact Or.inl rfl
  | succ n ih =>
    intro i st hi
    unfold plic_scan_loop
    simp only [rd_prio_wr_prio_same]
    split
    · right
      show i - 1 + 1 < i + (n + 1)
      omega
    · rcases ih (i + 1) (wr_prio (wr_prio st i 0xFFFFFFFF) i 0) (by omega) with h | h
      · exact Or.inl h
      · right; omega

theorem plic_init_impl (p : PlicPlat) (st : PlicState) :
    (plic_init p st).PLIC_IMPL_INTERRUPTS = (plic_scan_max_int p st).1 := by
  unfold plic_init
  simp only [foldl_rows_impl, foldl_wr_prio_impl]

/-! ## Accessors: helper lemmas -/

theorem plic_set_prio_impl (st : PlicState) (s v : Nat) :
    (plic_set_prio st s v).PLIC_IMPL_INTERRUPTS = st.PLIC_IMPL_INTERRUPTS := by
  unfold plic_set_prio
  split <;> rfl

theorem plic_set_prio_seq_impl (calls : List (Nat × Nat)) (st : PlicState) :
    (plic_set_prio_seq st calls).PLIC_IMPL_INTERRUPTS = st.PLIC_IMPL_INTERRUPTS := by
  unfold plic_set_prio_seq
  induction calls generalizing st with
  | nil => rfl
  | cons a l ih => rw [List.foldl_cons, ih, plic_set_prio_impl]

/-- Setting bit `b` of a 32-bit word makes the masked word non-zero. -/
theorem enbl_set_bit (e b : Nat) (hb : b < 32) :
    ((e ||| 1 <<< b) % 2 ^ 32) &&& (1 <<< b) ≠ 0 := by
  intro h
  have h1 : (((e ||| 1 <<< b) % 2 ^ 32) &&& (1 <<< b)).testBit b = false := by
    rw [h, Nat.zero_testBit]
  simp only [Nat.testBit_and, Nat.testBit_mod_two_pow, Nat.testBit_or, Nat.one_shiftLeft,
    Nat.testBit_two_pow_self] at h1
  simp [hb] at h1

/-- Clearing bit `b` of a 32-bit word makes the masked word zero. -/
theorem enbl_clear_bit (e b : Nat) :
    ((e &&& (1 <<< b ^^^ 0xFFFFFFFF)) % 2 ^ 32) &&& (1 <<< b) = 0 := by
  have hff : (0xFFFFFFFF : Nat) = 2 ^ 32 - 1 := by norm_num
  apply Nat.eq_of_testBit_eq
  intro i
  rw [hff]
  simp only [Nat.testBit_and, Nat.testBit_mod_two_pow, Nat.testBit_xor, Nat.one_shiftLeft,
    Nat.testBit_two_pow, Nat.testBit_two_pow_sub_one, Nat.zero_testBit]
  by_cases hi : b = i
  · subst hi
    by_cases hb : b < 32 <;> simp [hb]
  · simp [hi]

theorem wr_enbl_same (st : PlicState) (c j v : Nat) :
    (wr_enbl st c j v).enbl c j = v % 2 ^ 32 := by
  simp [wr_enbl]

/-- The masked word is non-zero exactly when the bit the mask selects is
set. -/
theorem and_mask_ne_zero_iff (e b : Nat) :
    e &&& 1 <<< b ≠ 0 ↔ e.testBit b = true := by
  rw [Nat.one_shiftLeft]
  constructor
  · intro h
    obtain ⟨i, hi⟩ := Nat.ne_zero_implies_bit_true h
    rw [Nat.testBit_and, Nat.testBit_two_pow, Bool.and_eq_true, decide_eq_true_eq] at hi
    rw [hi.2]
    exact hi.1
  · intro h hz
    have h1 : (e &&& 2 ^ b).testBit b = false := by rw [hz, Nat.zero_testBit]
    rw [Nat.testBit_and, Nat.testBit_two_pow_self, h] at h1
    exact Bool.noConfusion h1

theorem plic_cntxt_valid_iff (p : PlicPlat) (c : Nat) :
    plic_cntxt_valid p c = true
      ↔ c < p.PLIC_PLAT_CNTXT_NUM ∧ (p.id_to_cntxt c).mode ≤ p.PRIV_S := by
  unfold plic_cntxt_valid
  simp only [Bool.and_eq_true, decide_eq_true_eq]

theorem wr_threshold_same (st : PlicState) (c v : Nat) :
    (wr_threshold st c v).threshold c = v % 2 ^ 32 := by
  simp [wr_threshold]

theorem wr_threshold_other (st : PlicState) (c v c1 : Nat) (h : c1 ≠ c) :
    (wr_threshold st c v).threshold c1 = st.threshold c1 := by
  simp [wr_threshold, h]

/-- Setting bit `b` of a 32-bit word keeps every other bit of the word. -/
theorem enbl_set_bit_other (e b b1 : Nat) (h1 : b1 < 32) (hne : b1 ≠ b) :
    ((e ||| 1 <<< b) % 2 ^ 32).testBit b1 = e.testBit b1 := by
  have hb : ¬ b = b1 := fun h => hne h.symm
  simp only [Nat.testBit_mod_two_pow, Nat.testBit_or, Nat.one_shiftLeft, Nat.testBit_two_pow]
  simp [h1, hb]

/-- Clearing bit `b` of a 32-bit word keeps every other bit of the word. -/
theorem enbl_clear_bit_other (e b b1 : Nat) (h1 : b1 < 32) (hne : b1 ≠ b) :
    ((e &&& (1 <<< b ^^^ 0xFFFFFFFF)) % 2 ^ 32).testBit b1 = e.testBit b1 := by
  have hff : (0xFFFFFFFF : Nat) = 2 ^ 32 - 1 := by norm_num
  have hb : ¬ b = b1 := fun h => hne h.symm
  rw [hff]
  simp only [Nat.testBit_mod_two_pow, Nat.testBit_and, Nat.testBit_xor, Nat.one_shiftLeft,
    Nat.testBit_two_pow, Nat.testBit_two_pow_sub_one]
  simp [h1, hb]

theorem plic_set_enbl_impl (p : PlicPlat) (st : PlicState) (c s : Nat) (en : Bool) :
    (plic_set_enbl p st c s en).PLIC_IMPL_INTERRUPTS = st.PLIC_IMPL_INTERRUPTS := by
  unfold plic_set_enbl
  simp only
  split
  · split <;> rfl
  · rfl

theorem plic_set_threshold_impl (p : PlicPlat) (st : PlicState) (c t : Nat) :
    (plic_set_threshold p st c t).PLIC_IMPL_INTERRUPTS = st.PLIC_IMPL_INTERRUPTS := by
  unfold plic_set_threshold
  split <;> rfl

theorem plic_call_impl (p : PlicPlat) (e : IrqEnv) (m : Machine) (call : PlicCall) :
    (plic_call p e m call).regs.PLIC_IMPL_INTERRUPTS = m.regs.PLIC_IMPL_INTERRUPTS := by
  cases call with
  | cpu_init h => rfl
  | set_enbl c s en => exact plic_set_enbl_impl p m.regs c s en
  | get_enbl c s => rfl
  | set_prio s v => exact plic_set_prio_impl m.regs s v
  | get_prio s => rfl
  | get_pend s => rfl
  | set_threshold c t => exact plic_set_threshold_impl p m.regs c t
  | get_threshold c => rfl
  | handle h => rfl

theorem plic_run_impl (p : PlicPlat) (e : IrqEnv) (calls : List PlicCall) (m : Machine) :
    (plic_run p e m calls).regs.PLIC_IMPL_INTERRUPTS = m.regs.PLIC_IMPL_INTERRUPTS := by
  unfold plic_run
  induction calls generalizing m with
  | nil => rfl
  | cons a l ih => rw [List.foldl_cons, ih, plic_call_impl]

/-- Under the default mapping with machine mode above supervisor mode, the
valid contexts are the odd ids below the context count. -/
theorem default_cntxt_valid_iff (k : PlicConsts) (rb : Nat → Nat → Nat) (c : Nat)
    (hgt : k.PRIV_S < k.PRIV_M) :
    plic_cntxt_valid (default_plat k rb) c = true
      ↔ c < k.PLIC_PLAT_CNTXT_NUM ∧ c % 2 = 1 := by
  rw [plic_cntxt_valid_iff]
  show c < k.PLIC_PLAT_CNTXT_NUM ∧ (plic_plat_id_to_cntxt k c).mode ≤ k.PRIV_S ↔ _
  unfold plic_plat_id_to_cntxt
  constructor
  · rintro ⟨hc, hm⟩
    refine ⟨hc, ?_⟩
    rw [if_pos hc] at hm
    by_cases he : c % 2 = 0
    · simp only [if_pos he] at hm
      omega
    · omega
  · rintro ⟨hc, ho⟩
    refine ⟨hc, ?_⟩
    have he : ¬ c % 2 = 0 := by omega
    rw [if_pos hc]
    simp only [if_neg he]
    exact Nat.le_refl _

theorem wr_enbl_other (st : PlicState) (c j v c1 j1 : Nat) (h : ¬ (c1 = c ∧ j1 = j)) :
    (wr_enbl st c j v).enbl c1 j1 = st.enbl c1 j1 := by
  simp [wr_enbl, h]

/-- A store to the enable word of `(c, s)` keeps the bit of every other pair
`(c1, s1)`, whatever 32-bit update `f` of the targeted bit it makes. -/
theorem wr_enbl_keeps_bit (st : PlicState) (c s c1 s1 w : Nat)
    (hne : (c1, s1) ≠ (c, s))
    (hw : ∀ b1, b1 < 32 → b1 ≠ s % 32 →
      (w % 2 ^ 32).testBit b1 = (st.enbl c (s / 32)).testBit b1) :
    ((wr_enbl st c (s / 32) w).enbl c1 (s1 / 32)).testBit (s1 % 32)
      = (st.enbl c1 (s1 / 32)).testBit (s1 % 32) := by
  by_cases hsame : c1 = c ∧ s1 / 32 = s / 32
  · obtain ⟨hc, hj⟩ := hsame
    have hb : s1 % 32 ≠ s % 32 := by
      intro hmod
      apply hne
      have h1 := Nat.div_add_mod s1 32
      have h2 := Nat.div_add_mod s 32
      have : s1 = s := by omega
      rw [hc, this]
    rw [hc, hj, wr_enbl_same]
    exact hw (s1 % 32) (Nat.mod_lt _ (by decide)) hb
  · rw [wr_enbl_other _ _ _ _ _ _ hsame]

/-! ## Context mapping: round trips and invalid inputs -/

/-- Claim C1. Under the default context mapping, for every core id and every
privilege among machine and supervisor whose context id
`2 * core + (0 for machine, 1 for supervisor)` is below
`PLIC_PLAT_CNTXT_NUM` (a count that fits `size_t`), mapping the pair to its
id and the id back gives the pair again. -/
theorem cntxt_to_id_to_cntxt (k : PlicConsts) (core priv : Nat)
    (hfit : k.PLIC_PLAT_CNTXT_NUM ≤ 2 ^ k.SIZE_BITS)
    (hpriv : priv = k.PRIV_M ∨ priv = k.PRIV_S)
    (hid : 2 * core + (if priv = k.PRIV_M then 0 else 1) < k.PLIC_PLAT_CNTXT_NUM) :
    plic_plat_id_to_cntxt k
        (to_size k.SIZE_BITS (plic_plat_cntxt_to_id k { hart_id := core, mode := priv }))
      = { hart_id := core, mode := priv } := by
  have hlt : 2 * core + (if priv = k.PRIV_M then 0 else 1) < 2 ^ k.SIZE_BITS :=
    lt_of_lt_of_le hid hfit
  have h2 : core * 2 < 2 ^ k.SIZE_BITS := by
    split at hlt <;> omega
  have hnot : ¬ (priv ≠ k.PRIV_M ∧ priv ≠ k.PRIV_S) := by
    rcases hpriv with h | h
    · exact fun hh => hh.1 h
    · exact fun hh => hh.2 h
  have hsum : ((core * 2) % 2 ^ k.SIZE_BITS + (if priv = k.PRIV_M then 0 else 1))
      % 2 ^ k.SIZE_BITS = 2 * core + (if priv = k.PRIV_M then 0 else 1) := by
    rw [Nat.mod_eq_of_lt h2, Nat.mul_comm core 2, Nat.mod_eq_of_lt hlt]
  unfold plic_plat_cntxt_to_id
  simp only [if_neg hnot]
  rw [hsum, to_size_to_ssize _ _ hlt]
  unfold plic_plat_id_to_cntxt
  rw [if_pos hid]
  by_cases hm : priv = k.PRIV_M
  · simp only [if_pos hm, Nat.add_zero]
    rw [Nat.mul_div_cancel_left core (by decide : 0 < 2), Nat.mul_mod_right]
    simp [hm]
  · have hs : priv = k.PRIV_S := hpriv.resolve_left hm
    simp only [if_neg hm]
    have hd : (2 * core + 1) / 2 = core := by omega
    have hmod : (2 * core + 1) % 2 = 1 := by omega
    rw [hd, hmod]
    simp [hs]

/-- An instance of C1: core 3 in supervisor mode on an 8-context platform. -/
theorem cntxt_to_id_to_cntxt_witness :
    plic_plat_id_to_cntxt (consts64 8)
        (to_size 64 (plic_plat_cntxt_to_id (consts64 8) { hart_id := 3, mode := 1 }))
      = { hart_id := 3, mode := 1 } :=
  cntxt_to_id_to_cntxt (consts64 8) 3 1 (by decide) (by decide) (by decide)

/-- Claim C2. Under the default context mapping (machine and supervisor
having distinct encodings, the context count fitting `ssize_t`), for every
context id below `PLIC_PLAT_CNTXT_NUM` the context of the id has
`hart_id = id / 2` and mode machine when the id is even, supervisor when it
is odd, and mapping that context to its id gives the id again. -/
theorem id_to_cntxt_to_id (k : PlicConsts) (id : Nat)
    (hfit : k.PLIC_PLAT_CNTXT_NUM ≤ 2 ^ (k.SIZE_BITS - 1))
    (hne : k.PRIV_M ≠ k.PRIV_S)
    (hid : id < k.PLIC_PLAT_CNTXT_NUM) :
    plic_plat_id_to_cntxt k id
        = { hart_id := id / 2, mode := if id % 2 = 0 then k.PRIV_M else k.PRIV_S }
      ∧ plic_plat_cntxt_to_id k (plic_plat_id_to_cntxt k id) = (id : Int) := by
  have hc : plic_plat_id_to_cntxt k id
      = { hart_id := id / 2, mode := if id % 2 = 0 then k.PRIV_M else k.PRIV_S } := by
    unfold plic_plat_id_to_cntxt
    rw [if_pos hid]
  refine ⟨hc, ?_⟩
  have hlt1 : id < 2 ^ (k.SIZE_BITS - 1) := lt_of_lt_of_le hid hfit
  have hle : 2 ^ (k.SIZE_BITS - 1) ≤ 2 ^ k.SIZE_BITS :=
    Nat.pow_le_pow_right (by decide) (Nat.sub_le _ 1)
  have hlt : id < 2 ^ k.SIZE_BITS := lt_of_lt_of_le hlt1 hle
  have h2 : id / 2 * 2 < 2 ^ k.SIZE_BITS := by omega
  rw [hc]
  unfold plic_plat_cntxt_to_id
  by_cases he : id % 2 = 0
  · simp only [if_pos he, ne_eq, not_true_eq_false, false_and, if_false, if_true,
      Nat.add_zero, Nat.mod_mod]
    rw [Nat.mod_eq_of_lt h2]
    have hid2 : id / 2 * 2 = id := by omega
    rw [hid2, to_ssize_of_lt _ _ hlt1]
  · have hsm : ¬ (k.PRIV_S = k.PRIV_M) := fun h => hne h.symm
    simp only [if_neg he, ne_eq, not_true_eq_false, and_false, if_false, if_neg hsm]
    rw [Nat.mod_eq_of_lt h2]
    have hid2 : id / 2 * 2 + 1 = id := by omega
    rw [hid2, Nat.mod_eq_of_lt hlt, to_ssize_of_lt _ _ hlt1]

/-- An instance of C2: context id 5 on an 8-context platform. -/
theorem id_to_cntxt_to_id_witness :
    plic_plat_id_to_cntxt (consts64 8) 5 = { hart_id := 2, mode := 1 }
      ∧ plic_plat_cntxt_to_id (consts64 8) (plic_plat_id_to_cntxt (consts64 8) 5) = 5 :=
  id_to_cntxt_to_id (consts64 8) 5 (by decide) (by decide) (by decide)

/-- Claim C3. Under the default context mapping, `plic_plat_cntxt_to_id`
returns `-1` for every context whose privilege is neither machine nor
supervisor, whatever its core id, and `plic_plat_id_to_cntxt` returns the
invalid context, with `hart_id = INVALID_CPUID`, for every id greater than
or equal to `PLIC_PLAT_CNTXT_NUM`. -/
theorem cntxt_mapping_invalid (k : PlicConsts) :
    (∀ core mode : Nat, mode ≠ k.PRIV_M → mode ≠ k.PRIV_S →
        plic_plat_cntxt_to_id k { hart_id := core, mode := mode } = -1)
      ∧ (∀ id : Nat, k.PLIC_PLAT_CNTXT_NUM ≤ id →
        plic_plat_id_to_cntxt k id = { hart_id := k.INVALID_CPUID, mode := 0 }
          ∧ (plic_plat_id_to_cntxt k id).hart_id = k.INVALID_CPUID) := by
  constructor
  · intro core mode hm hs
    unfold plic_plat_cntxt_to_id
    rw [if_pos ⟨hm, hs⟩]
  · intro id hid
    have h : plic_plat_id_to_cntxt k id = { hart_id := k.INVALID_CPUID, mode := 0 } := by
      unfold plic_plat_id_to_cntxt
      rw [if_neg (Nat.not_lt.mpr hid)]
    exact ⟨h, by rw [h]⟩

/-- An instance of C3: user mode (encoding 0) on core 2, and context id 8 on
an 8-context platform. -/
theorem cntxt_mapping_invalid_witness :
    plic_plat_cntxt_to_id (consts64 8) { hart_id := 2, mode := 0 } = -1
      ∧ (plic_plat_id_to_cntxt (consts64 8) 8).hart_id = 2 ^ 64 - 1 :=
  ⟨(cntxt_mapping_invalid (consts64 8)).1 2 0 (by decide) (by decide),
   ((cntxt_mapping_invalid (consts64 8)).2 8 (by decide)).2⟩

/-! ## Capability probe and initialiser -/

/-- Claim C4. For every `k` with `k + 1 < PLIC_MAX_INTERRUPTS` and every
register bank in which the priority registers of sources `1..=k` read back
non-zero after an all-ones write and the priority register of source `k + 1`
always reads back zero, `plic_scan_max_int` returns `k`, so `plic_init` sets
`PLIC_IMPL_INTERRUPTS` to `k`. -/
theorem plic_scan_max_int_finds (p : PlicPlat) (st : PlicState) (k : Nat)
    (hk : k + 1 < p.PLIC_MAX_INTERRUPTS)
    (himpl : ∀ i, 1 ≤ i → i ≤ k → p.prio_readback i 0xFFFFFFFF ≠ 0)
    (hzero : ∀ v, p.prio_readback (k + 1) v = 0) :
    (plic_scan_max_int p st).1 = k ∧ (plic_init p st).PLIC_IMPL_INTERRUPTS = k := by
  have hscan : (plic_scan_max_int p st).1 = k := by
    unfold plic_scan_max_int
    exact plic_scan_loop_stops p k _ 1 st (by omega) (by omega) himpl (hzero _)
  exact ⟨hscan, by rw [plic_init_impl, hscan]⟩

/-- Instances of C4: a bank implementing the sources `1..=7` is probed as 7,
and a bank whose source 1 already reads back zero is probed as 0. -/
theorem plic_scan_max_int_finds_witness :
    ((plic_scan_max_int (default_plat (consts64 8) (readback_upto 7)) (zero_state 0)).1 = 7
        ∧ (plic_init (default_plat (consts64 8) (readback_upto 7))
            (zero_state 0)).PLIC_IMPL_INTERRUPTS = 7)
      ∧ ((plic_scan_max_int (default_plat (consts64 8) (readback_upto 0)) (zero_state 0)).1 = 0
        ∧ (plic_init (default_plat (consts64 8) (readback_upto 0))
            (zero_state 0)).PLIC_IMPL_INTERRUPTS = 0) :=
  ⟨plic_scan_max_int_finds (default_plat (consts64 8) (readback_upto 7)) (zero_state 0) 7
      (by decide)
      (fun i h1 h7 => by simp [default_plat, readback_upto, h1, h7])
      (fun v => by simp [default_plat, readback_upto]),
   plic_scan_max_int_finds (default_plat (consts64 8) (readback_upto 0)) (zero_state 0) 0
      (by decide)
      (fun i h1 h0 => by omega)
      (fun v => by simp [default_plat, readback_upto])⟩

/-- Claim C5, at the bank on which it fails. With `PLIC_MAX_INTERRUPTS = 1024`
and a bank in which exactly the sources `1..=1023` are implemented, the loop
of `plic_scan_max_int` never meets a zero readback, leaves `res` at its
initial value and returns `0`, not the highest implemented id `1023`. -/
theorem plic_scan_max_int_full_bank :
    (plic_scan_max_int (default_plat (consts64 8) (readback_upto 1023)) (zero_state 0)).1 = 0
      ∧ (plic_scan_max_int (default_plat (consts64 8) (readback_upto 1023))
          (zero_state 0)).1 ≠ 1023 := by
  have h : (plic_scan_max_int (default_plat (consts64 8) (readback_upto 1023))
      (zero_state 0)).1 = 0 := by
    unfold plic_scan_max_int
    apply plic_scan_loop_exhausted
    intro j h1 h2
    have hj : j ≤ 1023 := by
      have : j < 1 + (1024 - 1) := h2
      omega
    simp [default_plat, readback_upto, h1, hj]
  exact ⟨h, by rw [h]; decide⟩

/-- Claim C6. After `plic_init` on any initial register bank whose priority
registers each either store what is written or read zero (with enable rows
of `PLIC_NUM_ENBL_REGS > 0` words that cover the `PLIC_MAX_INTERRUPTS`
source ids), every source id in `1..=PLIC_IMPL_INTERRUPTS` has priority
register 0, every enable word `enbl[c][j]` with `c < PLIC_PLAT_CNTXT_NUM`
and `j < PLIC_NUM_ENBL_REGS` is 0, and `plic_get_enbl(c, s)` is false for
every context `c` and source `s`. -/
theorem plic_init_zeroes (p : PlicPlat) (st : PlicState)
    (hbank : ∀ i, (∀ v, v < 2 ^ 32 → p.prio_readback i v = v) ∨ (∀ v, p.prio_readback i v = 0))
    (hrow : 0 < p.PLIC_NUM_ENBL_REGS)
    (hcover : p.PLIC_MAX_INTERRUPTS ≤ 32 * p.PLIC_NUM_ENBL_REGS) :
    (∀ s, 1 ≤ s → s ≤ (plic_init p st).PLIC_IMPL_INTERRUPTS →
        rd_prio p (plic_init p st) s = 0 ∧ plic_get_prio p (plic_init p st) s = 0)
      ∧ (∀ c j, c < p.PLIC_PLAT_CNTXT_NUM → j < p.PLIC_NUM_ENBL_REGS →
        (plic_init p st).enbl c j = 0)
      ∧ (∀ c s, plic_get_enbl p (plic_init p st) c s = false) := by
  have hprio : ∀ s, s ≤ (plic_init p st).PLIC_IMPL_INTERRUPTS →
      (plic_init p st).prio s = 0 := by
    intro s hs
    rw [plic_init_impl] at hs
    unfold plic_init
    simp only [foldl_rows_prio]
    apply foldl_wr_prio_prio
    rw [List.mem_range]
    exact Nat.lt_succ_of_le hs
  have hrb0 : ∀ s, p.prio_readback s 0 = 0 := by
    intro s
    rcases hbank s with h | h
    · exact h 0 (by decide)
    · exact h 0
  have henbl : ∀ c j, c < p.PLIC_PLAT_CNTXT_NUM → j < p.PLIC_NUM_ENBL_REGS →
      (plic_init p st).enbl c j = 0 := by
    intro c j hc hj
    unfold plic_init
    simp only [foldl_rows_enbl, List.mem_range]
    rw [if_pos ⟨hc, hj⟩]
  refine ⟨?_, henbl, ?_⟩
  · intro s _ hs
    have hrd : rd_prio p (plic_init p st) s = 0 := by
      unfold rd_prio
      rw [hprio s hs, hrb0]
    refine ⟨hrd, ?_⟩
    unfold plic_get_prio
    rw [if_pos hs, hrd]
  · intro c s
    unfold plic_get_enbl
    simp only
    split
    · rename_i hcond
      obtain ⟨hs, hv⟩ := hcond
      have hc : c < p.PLIC_PLAT_CNTXT_NUM := by
        unfold plic_cntxt_valid at hv
        simp only [Bool.and_eq_true, decide_eq_true_eq] at hv
        exact hv.1
      have hj : s / 32 < p.PLIC_NUM_ENBL_REGS := by
        rw [plic_init_impl] at hs
        have hb := plic_scan_loop_bound p (p.PLIC_MAX_INTERRUPTS - 1) 1 st (Nat.le_refl 1)
        unfold plic_scan_max_int at hs
        rcases hb with h0 | hlt
        · rw [h0] at hs
          have : s = 0 := by omega
          subst this
          simpa using hrow
        · have : s < 32 * p.PLIC_NUM_ENBL_REGS := by omega
          exact Nat.div_lt_of_lt_mul this
      rw [henbl c (s / 32) hc hj]
      simp
    · rfl

/-- An instance of C6: the bank implementing the sources `1..=7`, with
non-zero initial contents, on an 8-context platform; source 3 and enable
word 0 of context 1 after `plic_init`. -/
theorem plic_init_zeroes_witness :
    rd_prio (default_plat (consts64 8) (readback_upto 7))
        (plic_init (default_plat (consts64 8) (readback_upto 7)) (dirty_state 0)) 3 = 0
      ∧ plic_get_prio (default_plat (consts64 8) (readback_upto 7))
        (plic_init (default_plat (consts64 8) (readback_upto 7)) (dirty_state 0)) 3 = 0
      ∧ (plic_init (default_plat (consts64 8) (readback_upto 7)) (dirty_state 0)).enbl 1 0 = 0
      ∧ plic_get_enbl (default_plat (consts64 8) (readback_upto 7))
        (plic_init (default_plat (consts64 8) (readback_upto 7)) (dirty_state 0)) 1 3 = false :=
  have h := plic_init_zeroes (default_plat (consts64 8) (readback_upto 7)) (dirty_state 0)
    (fun i => by
      by_cases h : 1 ≤ i ∧ i ≤ 7
      · exact Or.inl (fun v _ => by simp [default_plat, readback_upto, h])
      · exact Or.inr (fun v => by simp only [default_plat, readback_upto, if_neg h]))
    (by decide) (by decide)
  ⟨(h.1 3 (by decide) (by decide)).1, (h.1 3 (by decide) (by decide)).2,
   h.2.1 1 0 (by decide) (by decide), h.2.2 1 3⟩

/-! ## Priority accessors -/

/-- Claim C7. For every source id `s <= PLIC_IMPL_INTERRUPTS` and every
32-bit value `v`, after `plic_set_prio(s, v)` on a register bank whose
priority register `s` stores written values, `plic_get_prio(s)` returns
`v`. -/
theorem plic_get_prio_set_prio (p : PlicPlat) (st : PlicState) (s v : Nat)
    (hs : s ≤ st.PLIC_IMPL_INTERRUPTS)
    (hv : v < 2 ^ 32)
    (hstore : ∀ w, w < 2 ^ 32 → p.prio_readback s w = w) :
    plic_get_prio p (plic_set_prio st s v) s = v := by
  unfold plic_get_prio
  rw [plic_set_prio_impl, if_pos hs]
  unfold plic_set_prio
  rw [if_pos hs, rd_prio_wr_prio_same, Nat.mod_eq_of_lt hv]
  exact hstore v hv

/-- An instance of C7: priority `0xDEADBEEF` for source 7 of the bank that
implements the sources `1..=7`. -/
theorem plic_get_prio_set_prio_witness :
    plic_get_prio (default_plat (consts64 8) (readback_upto 7))
      (plic_set_prio (zero_state 7) 7 0xDEADBEEF) 7 = 0xDEADBEEF :=
  plic_get_prio_set_prio (default_plat (consts64 8) (readback_upto 7)) (zero_state 7) 7
    0xDEADBEEF (by decide) (by decide)
    (fun w _ => by simp [default_plat, readback_upto])

/-- Claim C8. For every source id `s > PLIC_IMPL_INTERRUPTS` and every value
`v`, `plic_set_prio(s, v)` leaves the whole register state unchanged, and
`plic_get_prio(s)` returns 0 in that state and in every state reached from
it by a sequence of `plic_set_prio` calls. -/
theorem plic_prio_out_of_range (p : PlicPlat) (st : PlicState) (s v : Nat)
    (hs : st.PLIC_IMPL_INTERRUPTS < s) :
    plic_set_prio st s v = st
      ∧ plic_get_prio p st s = 0
      ∧ ∀ calls : List (Nat × Nat), plic_get_prio p (plic_set_prio_seq st calls) s = 0 := by
  have hn : ¬ s ≤ st.PLIC_IMPL_INTERRUPTS := Nat.not_le.mpr hs
  refine ⟨?_, ?_, ?_⟩
  · unfold plic_set_prio
    rw [if_neg hn]
  · unfold plic_get_prio
    rw [if_neg hn]
  · intro calls
    unfold plic_get_prio
    rw [plic_set_prio_seq_impl, if_neg hn]

/-- An instance of C8: source 8 when `PLIC_IMPL_INTERRUPTS = 7`. -/
theorem plic_prio_out_of_range_witness :
    plic_set_prio (zero_state 7) 8 5 = zero_state 7
      ∧ plic_get_prio (default_plat (consts64 8) (fun _ v => v)) (zero_state 7) 8 = 0
      ∧ plic_get_prio (default_plat (consts64 8) (fun _ v => v))
          (plic_set_prio_seq (zero_state 7) [(8, 5), (3, 9), (8, 1)]) 8 = 0 :=
  have h := plic_prio_out_of_range (default_plat (consts64 8) (fun _ v => v))
    (zero_state 7) 8 5 (by decide)
  ⟨h.1, h.2.1, h.2.2 [(8, 5), (3, 9), (8, 1)]⟩

/-! ## Enable accessors -/

/-- Claim C9. For every valid context `c` and every source id
`s <= PLIC_IMPL_INTERRUPTS`, in every state: after
`plic_set_enbl(c, s, true)`, `plic_get_enbl(c, s)` returns true, and after
`plic_set_enbl(c, s, false)`, `plic_get_enbl(c, s)` returns false. -/
theorem plic_get_enbl_set_enbl (p : PlicPlat) (st : PlicState) (c s : Nat)
    (hc : plic_cntxt_valid p c = true)
    (hs : s ≤ st.PLIC_IMPL_INTERRUPTS) :
    plic_get_enbl p (plic_set_enbl p st c s true) c s = true
      ∧ plic_get_enbl p (plic_set_enbl p st c s false) c s = false := by
  have hb : s % 32 < 32 := Nat.mod_lt _ (by decide)
  constructor
  · unfold plic_set_enbl
    simp only [if_pos (And.intro hs hc), if_true]
    unfold plic_get_enbl
    have hs1 : s ≤ (wr_enbl st c (s / 32)
        (st.enbl c (s / 32) ||| 1 <<< (s % 32))).PLIC_IMPL_INTERRUPTS := hs
    simp only [if_pos (And.intro hs1 hc), wr_enbl_same]
    exact decide_eq_true (enbl_set_bit _ _ hb)
  · unfold plic_set_enbl
    simp only [if_pos (And.intro hs hc), Bool.false_eq_true, if_false]
    unfold plic_get_enbl
    have hs1 : s ≤ (wr_enbl st c (s / 32)
        (st.enbl c (s / 32) &&& (1 <<< (s % 32) ^^^ 0xFFFFFFFF))).PLIC_IMPL_INTERRUPTS := hs
    simp only [if_pos (And.intro hs1 hc), wr_enbl_same]
    rw [enbl_clear_bit]
    decide

/-- An instance of C9: supervisor context 1 and source 63, which is bit 31
of enable word 1, in a state whose enable words are all ones. -/
theorem plic_get_enbl_set_enbl_witness :
    plic_cntxt_valid (default_plat (consts64 8) (readback_upto 100)) 1 = true
      ∧ plic_get_enbl (default_plat (consts64 8) (readback_upto 100))
          (plic_set_enbl (default_plat (consts64 8) (readback_upto 100))
            (dirty_state 100) 1 63 true) 1 63 = true
      ∧ plic_get_enbl (default_plat (consts64 8) (readback_upto 100))
          (plic_set_enbl (default_plat (consts64 8) (readback_upto 100))
            (dirty_state 100) 1 63 false) 1 63 = false :=
  ⟨by decide,
   plic_get_enbl_set_enbl (default_plat (consts64 8) (readback_upto 100))
     (dirty_state 100) 1 63 (by decide) (by decide)⟩

/-- Claim C10. For every context `c` and source id `s` such that `c` is not a
valid context or `s > PLIC_IMPL_INTERRUPTS`, and for both values of the
flag, `plic_set_enbl(c, s, flag)` leaves the whole register state unchanged
and `plic_get_enbl(c, s)` returns false. -/
theorem plic_enbl_rejected (p : PlicPlat) (st : PlicState) (c s : Nat) (flag : Bool)
    (hbad : plic_cntxt_valid p c = false ∨ st.PLIC_IMPL_INTERRUPTS < s) :
    plic_set_enbl p st c s flag = st ∧ plic_get_enbl p st c s = false := by
  have hn : ¬ (s ≤ st.PLIC_IMPL_INTERRUPTS ∧ plic_cntxt_valid p c = true) := by
    rintro ⟨h1, h2⟩
    rcases hbad with h | h
    · rw [h] at h2
      exact Bool.noConfusion h2
    · exact absurd h1 (Nat.not_le.mpr h)
  constructor
  · unfold plic_set_enbl
    simp only [if_neg hn]
  · unfold plic_get_enbl
    simp only [if_neg hn]

/-- Instances of C10: the machine-mode context 0 with the implemented source
3, and the supervisor context 1 with source 8 above
`PLIC_IMPL_INTERRUPTS = 7`, in a state whose enable words are all ones. -/
theorem plic_enbl_rejected_witness :
    (plic_set_enbl (default_plat (consts64 8) (readback_upto 7))
          (dirty_state 7) 0 3 false
        = (dirty_state 7)
      ∧ plic_get_enbl (default_plat (consts64 8) (readback_upto 7))
          (dirty_state 7) 0 3 = false)
    ∧ (plic_set_enbl (default_plat (consts64 8) (readback_upto 7))
          (dirty_state 7) 1 8 true
        = (dirty_state 7)
      ∧ plic_get_enbl (default_plat (consts64 8) (readback_upto 7))
          (dirty_state 7) 1 8 = false) :=
  ⟨plic_enbl_rejected (default_plat (consts64 8) (readback_upto 7))
      (dirty_state 7) 0 3 false (Or.inl (by decide)),
   plic_enbl_rejected (default_plat (consts64 8) (readback_upto 7))
      (dirty_state 7) 1 8 true (Or.inr (by decide))⟩

/-! ## Claim/complete handler -/

/-- Claim C11. The function `plic_handle` reads the claim register of the
calling context exactly once; when the value read is 0 it calls the
dispatcher zero times and writes nothing; for every non-zero claimed id it
calls `interrupts_handle(id)` exactly once, and it writes `id` to the
completion register of the same context when the dispatcher returns
`HANDLED_BY_HYP` and makes no completion write for any other result. -/
theorem plic_handle_protocol (e : IrqEnv) (cpu : Cpu) :
    (plic_handle e cpu).2.filter PlicEvent.is_claim_read
        = [PlicEvent.claim_read cpu.plic_cntxt]
      ∧ (e.claim cpu.plic_cntxt = 0 →
          (plic_handle e cpu).2 = [PlicEvent.claim_read cpu.plic_cntxt]
            ∧ (plic_handle e cpu).1 = cpu)
      ∧ (e.claim cpu.plic_cntxt ≠ 0 →
          (plic_handle e cpu).2.filter PlicEvent.is_dispatch
              = [PlicEvent.dispatch (e.claim cpu.plic_cntxt)]
            ∧ (e.interrupts_handle (e.claim cpu.plic_cntxt) = e.HANDLED_BY_HYP →
                (plic_handle e cpu).2.filter PlicEvent.is_complete_write
                  = [PlicEvent.complete_write cpu.plic_cntxt (e.claim cpu.plic_cntxt)])
            ∧ (e.interrupts_handle (e.claim cpu.plic_cntxt) ≠ e.HANDLED_BY_HYP →
                (plic_handle e cpu).2.filter PlicEvent.is_complete_write = [])) := by
  by_cases h0 : e.claim cpu.plic_cntxt = 0
  · have hh : plic_handle e cpu = (cpu, [PlicEvent.claim_read cpu.plic_cntxt]) := by
      unfold plic_handle
      simp [h0]
    rw [hh]
    refine ⟨rfl, fun _ => ⟨rfl, rfl⟩, fun h => absurd h0 h⟩
  · by_cases hr : e.interrupts_handle (e.claim cpu.plic_cntxt) = e.HANDLED_BY_HYP
    · have hh : (plic_handle e cpu).2 = [PlicEvent.claim_read cpu.plic_cntxt,
          PlicEvent.dispatch (e.claim cpu.plic_cntxt),
          PlicEvent.complete_write cpu.plic_cntxt (e.claim cpu.plic_cntxt)] := by
        unfold plic_handle
        simp [h0, hr]
      rw [hh]
      refine ⟨rfl, fun h => absurd h h0, fun _ => ⟨rfl, fun _ => rfl, fun h => absurd hr h⟩⟩
    · have hh : (plic_handle e cpu).2 = [PlicEvent.claim_read cpu.plic_cntxt,
          PlicEvent.dispatch (e.claim cpu.plic_cntxt)] := by
        unfold plic_handle
        simp [h0, hr]
      rw [hh]
      refine ⟨rfl, fun h => absurd h h0, fun _ => ⟨rfl, fun h => absurd h hr, fun _ => rfl⟩⟩

/-- Instances of C11 on the core whose context is 1: claimed id 5, which the
dispatcher services in the hypervisor, is completed; claimed id 6, which it
forwards, is not; claimed id 0 is followed by nothing. -/
theorem plic_handle_protocol_witness :
    ((plic_handle (env_claiming 5) { id := 0, plic_cntxt := 1, external_id := 0 }).2.filter
          PlicEvent.is_dispatch = [PlicEvent.dispatch 5]
        ∧ (plic_handle (env_claiming 5) { id := 0, plic_cntxt := 1, external_id := 0 }).2.filter
          PlicEvent.is_complete_write = [PlicEvent.complete_write 1 5])
      ∧ ((plic_handle (env_claiming 6) { id := 0, plic_cntxt := 1, external_id := 0 }).2.filter
          PlicEvent.is_dispatch = [PlicEvent.dispatch 6]
        ∧ (plic_handle (env_claiming 6) { id := 0, plic_cntxt := 1, external_id := 0 }).2.filter
          PlicEvent.is_complete_write = [])
      ∧ (plic_handle (env_claiming 0) { id := 0, plic_cntxt := 1, external_id := 0 }).2
          = [PlicEvent.claim_read 1] :=
  have h5 := (plic_handle_protocol (env_claiming 5)
    { id := 0, plic_cntxt := 1, external_id := 0 }).2.2 (by decide)
  have h6 := (plic_handle_protocol (env_claiming 6)
    { id := 0, plic_cntxt := 1, external_id := 0 }).2.2 (by decide)
  have h0 := (plic_handle_protocol (env_claiming 0)
    { id := 0, plic_cntxt := 1, external_id := 0 }).2.1 (by decide)
  ⟨⟨h5.1, h5.2.1 (by decide)⟩, ⟨h6.1, h6.2.2 (by decide)⟩, h0.1⟩

/-! ## Threshold and pending accessors -/

/-- Claim C13. For every valid context `c` and every 32-bit value `t` (on a
platform whose context count fits the `unsigned` parameter of the getter),
after `plic_set_threshold(c, t)`, `plic_get_threshold(c)` returns `t`, and
the threshold of every other context is unchanged: its threshold word is
the same, and so is what `plic_get_threshold` returns for it. -/
theorem plic_get_threshold_set_threshold (p : PlicPlat) (st : PlicState) (c t : Nat)
    (hfit32 : p.PLIC_PLAT_CNTXT_NUM ≤ 2 ^ 32)
    (hc : plic_cntxt_valid p c = true)
    (ht : t < 2 ^ 32) :
    plic_get_threshold p (plic_set_threshold p st c t) c = t
      ∧ (∀ c1, c1 ≠ c → (plic_set_threshold p st c t).threshold c1 = st.threshold c1)
      ∧ ∀ c1, c1 < 2 ^ 32 → c1 ≠ c →
          plic_get_threshold p (plic_set_threshold p st c t) c1
            = plic_get_threshold p st c1 := by
  have hset : plic_set_threshold p st c t = wr_threshold st c t := by
    unfold plic_set_threshold
    rw [if_pos hc]
  have hc32 : c % 2 ^ 32 = c := by
    have hlt : c < p.PLIC_PLAT_CNTXT_NUM := ((plic_cntxt_valid_iff p c).mp hc).1
    exact Nat.mod_eq_of_lt (lt_of_lt_of_le hlt hfit32)
  rw [hset]
  refine ⟨?_, ?_, ?_⟩
  · unfold plic_get_threshold
    simp only [hc32]
    rw [if_pos hc, wr_threshold_same, Nat.mod_eq_of_lt ht]
  · intro c1 hc1
    exact wr_threshold_other st c t c1 hc1
  · intro c1 h32 hc1
    unfold plic_get_threshold
    simp only [Nat.mod_eq_of_lt h32]
    rw [wr_threshold_other st c t c1 hc1]

/-- An instance of C13: threshold `0xFFFFFFFF` for the supervisor context 1,
seen from context 3. -/
theorem plic_get_threshold_set_threshold_witness :
    plic_get_threshold (default_plat (consts64 8) (readback_upto 7))
        (plic_set_threshold (default_plat (consts64 8) (readback_upto 7))
          (dirty_state 7) 1 0xFFFFFFFF) 1 = 0xFFFFFFFF
      ∧ (plic_set_threshold (default_plat (consts64 8) (readback_upto 7))
          (dirty_state 7) 1 0xFFFFFFFF).threshold 3 = (dirty_state 7).threshold 3
      ∧ plic_get_threshold (default_plat (consts64 8) (readback_upto 7))
        (plic_set_threshold (default_plat (consts64 8) (readback_upto 7))
          (dirty_state 7) 1 0xFFFFFFFF) 3
          = plic_get_threshold (default_plat (consts64 8) (readback_upto 7))
            (dirty_state 7) 3 :=
  have h := plic_get_threshold_set_threshold (default_plat (consts64 8) (readback_upto 7))
    (dirty_state 7) 1 0xFFFFFFFF (by decide) (by decide) (by decide)
  ⟨h.1, h.2.1 3 (by decide), h.2.2 3 (by decide) (by decide)⟩

/-- Claim C15. For every source id `s`, `plic_get_pend(s)` returns true
exactly when `s <= PLIC_IMPL_INTERRUPTS` and bit `s mod 32` of pending word
`s div 32` is set; it returns false for every `s > PLIC_IMPL_INTERRUPTS`
whatever the pending bitmap holds; and the call leaves the state as it
is. -/
theorem plic_get_pend_reads_bit (p : PlicPlat) (e : IrqEnv) (m : Machine) (s : Nat) :
    (plic_get_pend m.regs s = true
        ↔ s ≤ m.regs.PLIC_IMPL_INTERRUPTS ∧ (m.regs.pend (s / 32)).testBit (s % 32) = true)
      ∧ (m.regs.PLIC_IMPL_INTERRUPTS < s → plic_get_pend m.regs s = false)
      ∧ plic_call p e m (PlicCall.get_pend s) = m := by
  refine ⟨?_, ?_, rfl⟩
  · unfold plic_get_pend
    by_cases hs : s ≤ m.regs.PLIC_IMPL_INTERRUPTS
    · rw [if_pos hs, decide_eq_true_eq, and_mask_ne_zero_iff]
      exact ⟨fun h => ⟨hs, h⟩, fun h => h.2⟩
    · simp only [if_neg hs, hs, false_and]
      exact ⟨fun h => Bool.noConfusion h, fun h => h.elim⟩
  · intro hs
    unfold plic_get_pend
    simp only [if_neg (Nat.not_le.mpr hs)]

/-- Instances of C15 with all pending words equal to `0x80000001`: source 63,
bit 31 of word 1, is pending when `PLIC_IMPL_INTERRUPTS = 100` and is
reported not pending when `PLIC_IMPL_INTERRUPTS = 7`. -/
theorem plic_get_pend_reads_bit_witness :
    plic_get_pend { zero_state 100 with pend := fun _ => 0x80000001 } 63 = true
      ∧ plic_get_pend { zero_state 7 with pend := fun _ => 0x80000001 } 63 = false :=
  ⟨(plic_get_pend_reads_bit (default_plat (consts64 8) (readback_upto 100)) (env_claiming 0)
      { regs := { zero_state 100 with pend := fun _ => 0x80000001 }
        cpus := cpu_of
        trace := [] } 63).1.mpr ⟨by decide, by decide⟩,
   (plic_get_pend_reads_bit (default_plat (consts64 8) (readback_upto 7)) (env_claiming 0)
      { regs := { zero_state 7 with pend := fun _ => 0x80000001 }
        cpus := cpu_of
        trace := [] } 63).2.1 (by decide)⟩

/-! ## Degenerate controller -/

/-- Claim C12 fails for source id 0. With `PLIC_IMPL_INTERRUPTS = 0` the
bound check `int_id <= PLIC_IMPL_INTERRUPTS` passes for source 0, so
`plic_set_prio(0, 5)` stores into `prio[0]` and `plic_set_enbl(1, 0, true)`
sets bit 0 of `enbl[1][0]`: neither leaves the state unchanged. -/
theorem plic_degenerate_source_zero_written :
    (zero_state 0).PLIC_IMPL_INTERRUPTS = 0
      ∧ plic_set_prio (zero_state 0) 0 5 ≠ zero_state 0
      ∧ plic_set_enbl (default_plat (consts64 8) (readback_upto 0)) (zero_state 0) 1 0 true
          ≠ zero_state 0 :=
  ⟨rfl,
   fun h => absurd (congrArg (fun t => t.prio 0) h) (by decide),
   fun h => absurd (congrArg (fun t => t.enbl 1 0) h) (by decide)⟩

/-- Claim C12, amended. When `PLIC_IMPL_INTERRUPTS = 0`, for every source id
`s >= 1`, every context `c` and every value, `plic_set_prio(s, v)` and
`plic_set_enbl(c, s, flag)` leave the whole register state unchanged. -/
theorem plic_degenerate_noop (p : PlicPlat) (st : PlicState) (c s v : Nat) (flag : Bool)
    (h0 : st.PLIC_IMPL_INTERRUPTS = 0)
    (hs : 1 ≤ s) :
    plic_set_prio st s v = st ∧ plic_set_enbl p st c s flag = st := by
  have hn : ¬ s ≤ st.PLIC_IMPL_INTERRUPTS := by omega
  constructor
  · unfold plic_set_prio
    rw [if_neg hn]
  · unfold plic_set_enbl
    simp only [if_neg (fun h : s ≤ st.PLIC_IMPL_INTERRUPTS ∧ plic_cntxt_valid p c = true =>
      hn h.1)]

/-- An instance of the amended C12: source 1 on the supervisor context 1. -/
theorem plic_degenerate_noop_witness :
    plic_set_prio (dirty_state 0) 1 9 = dirty_state 0
      ∧ plic_set_enbl (default_plat (consts64 8) (readback_upto 0)) (dirty_state 0) 1 1 false
          = dirty_state 0 :=
  plic_degenerate_noop (default_plat (consts64 8) (readback_upto 0)) (dirty_state 0) 1 1 9
    false rfl (by decide)

/-! ## Per-core initialiser -/

/-- Claim C16. Under the default context mapping (machine and supervisor
having distinct encodings, the context count fitting `ssize_t` and
`unsigned`), for every core id `h` with `2 * h + 1 < PLIC_PLAT_CNTXT_NUM`,
`plic_cpu_init` on core `h` stores context id `2 * h + 1`, which is the
supervisor context of core `h` and a valid context, in the per-core state,
and sets the threshold of that context to 0, leaving the threshold of every
other context unchanged. -/
theorem plic_cpu_init_supervisor (k : PlicConsts) (rb : Nat → Nat → Nat) (cpu : Cpu)
    (st : PlicState)
    (hne : k.PRIV_M ≠ k.PRIV_S)
    (hfit : k.PLIC_PLAT_CNTXT_NUM ≤ 2 ^ (k.SIZE_BITS - 1))
    (hfit32 : k.PLIC_PLAT_CNTXT_NUM ≤ 2 ^ 32)
    (hid : 2 * cpu.id + 1 < k.PLIC_PLAT_CNTXT_NUM) :
    (plic_cpu_init (default_plat k rb) cpu st).1.plic_cntxt = 2 * cpu.id + 1
      ∧ plic_plat_id_to_cntxt k (2 * cpu.id + 1) = { hart_id := cpu.id, mode := k.PRIV_S }
      ∧ plic_cntxt_valid (default_plat k rb) (2 * cpu.id + 1) = true
      ∧ (plic_cpu_init (default_plat k rb) cpu st).2.threshold (2 * cpu.id + 1) = 0
      ∧ ∀ c, c ≠ 2 * cpu.id + 1 →
          (plic_cpu_init (default_plat k rb) cpu st).2.threshold c = st.threshold c := by
  have hlt1 : 2 * cpu.id + 1 < 2 ^ (k.SIZE_BITS - 1) := lt_of_lt_of_le hid hfit
  have hle : 2 ^ (k.SIZE_BITS - 1) ≤ 2 ^ k.SIZE_BITS :=
    Nat.pow_le_pow_right (by decide) (Nat.sub_le _ 1)
  have hlt : 2 * cpu.id + 1 < 2 ^ k.SIZE_BITS := lt_of_lt_of_le hlt1 hle
  have hlt32 : 2 * cpu.id + 1 < 2 ^ 32 := lt_of_lt_of_le hid hfit32
  have hsm : ¬ k.PRIV_S = k.PRIV_M := fun h => hne h.symm
  have hmap : plic_plat_cntxt_to_id k { hart_id := cpu.id, mode := k.PRIV_S }
      = ((2 * cpu.id + 1 : Nat) : Int) := by
    unfold plic_plat_cntxt_to_id
    simp only [ne_eq, not_true_eq_false, and_false, if_false, if_neg hsm]
    have h2 : cpu.id * 2 < 2 ^ k.SIZE_BITS := by omega
    rw [Nat.mod_eq_of_lt h2, Nat.mul_comm cpu.id 2, Nat.mod_eq_of_lt hlt,
      to_ssize_of_lt _ _ hlt1]
  have hcast : to_size 32 ((2 * cpu.id + 1 : Nat) : Int) = 2 * cpu.id + 1 := by
    unfold to_size
    rw [← Int.natCast_mod, Int.toNat_ofNat, Nat.mod_eq_of_lt hlt32]
  have hcn : (plic_cpu_init (default_plat k rb) cpu st).1.plic_cntxt = 2 * cpu.id + 1 := by
    show to_size 32 (plic_plat_cntxt_to_id k { hart_id := cpu.id, mode := k.PRIV_S }) = _
    rw [hmap, hcast]
  have hst : (plic_cpu_init (default_plat k rb) cpu st).2
      = wr_threshold st (2 * cpu.id + 1) 0 := by
    show wr_threshold st (plic_cpu_init (default_plat k rb) cpu st).1.plic_cntxt 0 = _
    rw [hcn]
  have hctx : plic_plat_id_to_cntxt k (2 * cpu.id + 1)
      = { hart_id := cpu.id, mode := k.PRIV_S } := by
    unfold plic_plat_id_to_cntxt
    rw [if_pos hid]
    have hd : (2 * cpu.id + 1) / 2 = cpu.id := by omega
    have hm : ¬ (2 * cpu.id + 1) % 2 = 0 := by omega
    rw [hd, if_neg hm]
  refine ⟨hcn, hctx, ?_, ?_, ?_⟩
  · rw [plic_cntxt_valid_iff]
    refine ⟨hid, ?_⟩
    show (plic_plat_id_to_cntxt k (2 * cpu.id + 1)).mode ≤ k.PRIV_S
    rw [hctx]
  · rw [hst, wr_threshold_same, Nat.zero_mod]
  · intro c hc
    rw [hst, wr_threshold_other _ _ _ _ hc]

/-- An instance of C16: core 3 of an 8-context platform takes context 7. -/
theorem plic_cpu_init_supervisor_witness :
    (plic_cpu_init (default_plat (consts64 8) (readback_upto 7)) (cpu_of 3)
        (dirty_state 7)).1.plic_cntxt = 7
      ∧ (plic_cpu_init (default_plat (consts64 8) (readback_upto 7)) (cpu_of 3)
        (dirty_state 7)).2.threshold 7 = 0
      ∧ (plic_cpu_init (default_plat (consts64 8) (readback_upto 7)) (cpu_of 3)
        (dirty_state 7)).2.threshold 5 = (dirty_state 7).threshold 5 :=
  have h := plic_cpu_init_supervisor (consts64 8) (readback_upto 7) (cpu_of 3) (dirty_state 7)
    (by decide) (by decide) (by decide) (by decide)
  ⟨h.1, h.2.2.2.1, h.2.2.2.2 5 (by decide)⟩

/-! ## Machine-mode contexts -/

/-- Claim C17. Under the default context mapping with `PRIV_M > PRIV_S`,
`plic_cntxt_valid(c)` holds exactly when `c < PLIC_PLAT_CNTXT_NUM` and `c`
is odd; hence for every even context id `c`, every source `s` and every
value, `plic_set_enbl(c, s, flag)` and `plic_set_threshold(c, t)` leave the
register state unchanged, `plic_get_enbl(c, s)` is false and
`plic_get_threshold(c)` is 0. -/
theorem plic_machine_cntxt_untouched (k : PlicConsts) (rb : Nat → Nat → Nat)
    (hgt : k.PRIV_S < k.PRIV_M) :
    (∀ c, plic_cntxt_valid (default_plat k rb) c = true
        ↔ c < k.PLIC_PLAT_CNTXT_NUM ∧ c % 2 = 1)
      ∧ ∀ (st : PlicState) (c s t : Nat) (flag : Bool), c % 2 = 0 →
          plic_set_enbl (default_plat k rb) st c s flag = st
            ∧ plic_set_threshold (default_plat k rb) st c t = st
            ∧ plic_get_enbl (default_plat k rb) st c s = false
            ∧ plic_get_threshold (default_plat k rb) st c = 0 := by
  refine ⟨fun c => default_cntxt_valid_iff k rb c hgt, ?_⟩
  intro st c s t flag heven
  have hn : ¬ plic_cntxt_valid (default_plat k rb) c = true := by
    rw [default_cntxt_valid_iff k rb c hgt]
    omega
  have hn2 : ¬ (s ≤ st.PLIC_IMPL_INTERRUPTS
      ∧ plic_cntxt_valid (default_plat k rb) c = true) := fun h => hn h.2
  refine ⟨?_, ?_, ?_, ?_⟩
  · unfold plic_set_enbl
    simp only [if_neg hn2]
  · unfold plic_set_threshold
    rw [if_neg hn]
  · unfold plic_get_enbl
    simp only [if_neg hn2]
  · have hn32 : ¬ plic_cntxt_valid (default_plat k rb) (c % 2 ^ 32) = true := by
      rw [default_cntxt_valid_iff k rb _ hgt]
      have h2 : (2 : Nat) ∣ 2 ^ 32 := ⟨2 ^ 31, by norm_num⟩
      have hpar : c % 2 ^ 32 % 2 = c % 2 := Nat.mod_mod_of_dvd c h2
      omega
    unfold plic_get_threshold
    simp only [if_neg hn32]

/-- An instance of C17: context 0 with the implemented source 3, in a state
whose enable words are all ones and whose thresholds are 3. -/
theorem plic_machine_cntxt_untouched_witness :
    plic_cntxt_valid (default_plat (consts64 8) (readback_upto 7)) 0 = false
      ∧ plic_set_enbl (default_plat (consts64 8) (readback_upto 7)) (dirty_state 7) 0 3 false
          = dirty_state 7
      ∧ plic_set_threshold (default_plat (consts64 8) (readback_upto 7)) (dirty_state 7) 0 9
          = dirty_state 7
      ∧ plic_get_enbl (default_plat (consts64 8) (readback_upto 7)) (dirty_state 7) 0 3 = false
      ∧ plic_get_threshold (default_plat (consts64 8) (readback_upto 7)) (dirty_state 7) 0
          = 0 :=
  ⟨by decide,
   (plic_machine_cntxt_untouched (consts64 8) (readback_upto 7) (by decide)).2
     (dirty_state 7) 0 3 9 false (by decide)⟩

/-! ## The probed bound -/

/-- Claim C18. None of `plic_cpu_init`, `plic_set_enbl`, `plic_get_enbl`,
`plic_set_prio`, `plic_get_prio`, `plic_get_pend`, `plic_set_threshold`,
`plic_get_threshold` and `plic_handle` changes `PLIC_IMPL_INTERRUPTS`, for
any arguments and any state; so in every state reached from `plic_init` by
these calls it equals the probed value. -/
theorem plic_impl_interrupts_immutable (p : PlicPlat) (e : IrqEnv) :
    (∀ (m : Machine) (call : PlicCall),
        (plic_call p e m call).regs.PLIC_IMPL_INTERRUPTS = m.regs.PLIC_IMPL_INTERRUPTS)
      ∧ ∀ (m : Machine) (calls : List PlicCall),
          (plic_run p e { m with regs := plic_init p m.regs } calls).regs.PLIC_IMPL_INTERRUPTS
            = (plic_scan_max_int p m.regs).1 := by
  refine ⟨fun m call => plic_call_impl p e m call, ?_⟩
  intro m calls
  rw [plic_run_impl]
  exact plic_init_impl p m.regs

/-- Claim C20. For every register bank, `plic_scan_max_int` returns (it is a
total function: the loop runs at most `PLIC_MAX_INTERRUPTS - 1` times) a
value `r` with `r + 1 < PLIC_MAX_INTERRUPTS` or `r = 0`; consequently, with
`PLIC_IMPL_INTERRUPTS = r` as `plic_init` sets it and a non-empty priority
array, every source id `s` that passes the bound check
`s <= PLIC_IMPL_INTERRUPTS` gives an index `s` into `prio` below
`PLIC_MAX_INTERRUPTS` and an index `s / 32` into `pend` and `enbl[c]` below
`PLIC_MAX_INTERRUPTS / 32` rounded up. -/
theorem plic_scan_max_int_in_bounds (p : PlicPlat) (st : PlicState) :
    ((plic_scan_max_int p st).1 + 1 < p.PLIC_MAX_INTERRUPTS ∨ (plic_scan_max_int p st).1 = 0)
      ∧ (0 < p.PLIC_MAX_INTERRUPTS →
          ∀ s, s ≤ (plic_init p st).PLIC_IMPL_INTERRUPTS →
            s < p.PLIC_MAX_INTERRUPTS ∧ s / 32 < (p.PLIC_MAX_INTERRUPTS + 31) / 32) := by
  have hb : (plic_scan_max_int p st).1 + 1 < p.PLIC_MAX_INTERRUPTS
      ∨ (plic_scan_max_int p st).1 = 0 := by
    have h := plic_scan_loop_bound p (p.PLIC_MAX_INTERRUPTS - 1) 1 st (Nat.le_refl 1)
    unfold plic_scan_max_int
    rcases h with h | h
    · exact Or.inr h
    · left; omega
  refine ⟨hb, ?_⟩
  intro hpos s hs
  rw [plic_init_impl] at hs
  have hlt : s < p.PLIC_MAX_INTERRUPTS := by
    rcases hb with h | h <;> omega
  refine ⟨hlt, ?_⟩
  rw [Nat.div_lt_iff_lt_mul (by decide : 0 < 32)]
  have := Nat.div_add_mod (p.PLIC_MAX_INTERRUPTS + 31) 32
  have := Nat.mod_lt (p.PLIC_MAX_INTERRUPTS + 31) (by decide : 0 < 32)
  omega

/-- An instance of C20: the bank implementing the sources `1..=7`, probed
with `PLIC_MAX_INTERRUPTS = 1024`, and source 7 as the accessor argument. -/
theorem plic_scan_max_int_in_bounds_witness :
    7 < (default_plat (consts64 8) (readback_upto 7)).PLIC_MAX_INTERRUPTS
      ∧ 7 / 32 < ((default_plat (consts64 8) (readback_upto 7)).PLIC_MAX_INTERRUPTS + 31) / 32 :=
  (plic_scan_max_int_in_bounds (default_plat (consts64 8) (readback_upto 7))
    (dirty_state 0)).2 (by decide) 7 (by decide)

/-! ## Frame of the enable setter -/

/-- Claim C19. The function `plic_set_enbl` changes at most the one targeted
enable bit: for all contexts `c`, `c1` and sources `s`, `s1` with
`(c1, s1) != (c, s)`, `plic_get_enbl(c1, s1)` returns the same value before
and after `plic_set_enbl(c, s, flag)` (for `s1 <= PLIC_IMPL_INTERRUPTS`, and
also above it, where both reads are false); and every priority, pending and
threshold register is unchanged by it. -/
theorem plic_set_enbl_frame (p : PlicPlat) (st : PlicState) (c s c1 s1 : Nat) (flag : Bool)
    (hne : (c1, s1) ≠ (c, s)) :
    plic_get_enbl p (plic_set_enbl p st c s flag) c1 s1 = plic_get_enbl p st c1 s1
      ∧ (plic_set_enbl p st c s flag).prio = st.prio
      ∧ (plic_set_enbl p st c s flag).pend = st.pend
      ∧ (plic_set_enbl p st c s flag).threshold = st.threshold := by
  by_cases hg : s ≤ st.PLIC_IMPL_INTERRUPTS ∧ plic_cntxt_valid p c = true
  · have hread : ∀ w, (∀ b1, b1 < 32 → b1 ≠ s % 32 →
        (w % 2 ^ 32).testBit b1 = (st.enbl c (s / 32)).testBit b1) →
        plic_get_enbl p (wr_enbl st c (s / 32) w) c1 s1 = plic_get_enbl p st c1 s1 := by
      intro w hw
      unfold plic_get_enbl
      have himpl : (wr_enbl st c (s / 32) w).PLIC_IMPL_INTERRUPTS
          = st.PLIC_IMPL_INTERRUPTS := rfl
      simp only [himpl]
      by_cases hg1 : s1 ≤ st.PLIC_IMPL_INTERRUPTS ∧ plic_cntxt_valid p c1 = true
      · rw [if_pos hg1, if_pos hg1, decide_eq_decide, and_mask_ne_zero_iff,
          and_mask_ne_zero_iff, wr_enbl_keeps_bit st c s c1 s1 w hne hw]
      · rw [if_neg hg1, if_neg hg1]
    cases flag with
    | true =>
      have hset : plic_set_enbl p st c s true
          = wr_enbl st c (s / 32) (st.enbl c (s / 32) ||| 1 <<< (s % 32)) := by
        unfold plic_set_enbl
        simp only [if_pos hg, if_true]
      rw [hset]
      exact ⟨hread _ (fun b1 h1 hb => enbl_set_bit_other _ _ _ h1 hb), rfl, rfl, rfl⟩
    | false =>
      have hset : plic_set_enbl p st c s false
          = wr_enbl st c (s / 32)
              (st.enbl c (s / 32) &&& (1 <<< (s % 32) ^^^ 0xFFFFFFFF)) := by
        unfold plic_set_enbl
        simp only [if_pos hg, Bool.false_eq_true, if_false]
      rw [hset]
      exact ⟨hread _ (fun b1 h1 hb => enbl_clear_bit_other _ _ _ h1 hb), rfl, rfl, rfl⟩
  · have hset : plic_set_enbl p st c s flag = st := by
      unfold plic_set_enbl
      simp only [if_neg hg]
    rw [hset]
    exact ⟨rfl, rfl, rfl, rfl⟩

/-- Instances of C19 in a state whose enable words are all ones: clearing
source 33 of context 1 keeps source 34 of the same word enabled, and keeps
source 33 of context 3 enabled. -/
theorem plic_set_enbl_frame_witness :
    plic_get_enbl (default_plat (consts64 8) (readback_upto 100))
        (plic_set_enbl (default_plat (consts64 8) (readback_upto 100))
          (dirty_state 100) 1 33 false) 1 34
        = plic_get_enbl (default_plat (consts64 8) (readback_upto 100)) (dirty_state 100) 1 34
      ∧ plic_get_enbl (default_plat (consts64 8) (readback_upto 100))
        (plic_set_enbl (default_plat (consts64 8) (readback_upto 100))
          (dirty_state 100) 1 33 false) 3 33
        = plic_get_enbl (default_plat (consts64 8) (readback_upto 100)) (dirty_state 100) 3 33 :=
  ⟨(plic_set_enbl_frame (default_plat (consts64 8) (readback_upto 100)) (dirty_state 100)
      1 33 1 34 false (by decide)).1,
   (plic_set_enbl_frame (default_plat (consts64 8) (readback_upto 100)) (dirty_state 100)
      1 33 3 33 false (by decide)).1⟩

end Plic
